import Mathlib

/-!
Verification development for the logs-gateway log emission pipeline.

The definitions below are shallow embeddings of the TypeScript sources:
  * `src/sanitizer.ts`        (LogSanitizer)
  * the LogsGateway class     (shouldIncludeLog / updateBetweenRangeState / shouldSend)
  * `src/outputs/shadow-sink.ts` (ShadowSink)

JavaScript values that can form reference cycles are modelled as a finite
heap of composite objects addressed by natural numbers; primitive values are
inline.  External collaborators that are not part of this repository's code
(the regex machinery of the npm packages behind `detectAndMask`, the SHA-256
hash of `crypto`, `JSON.stringify`, and the wall clock `Date.now()`) are
modelled as opaque function parameters of the environment, so every theorem
holds for all of their behaviours.
-/

/-! ### String helpers

Kernel-computable versions of the JavaScript string operations used by the
sources: `toLowerCase()`, `includes(substring)`, `includes(char)`. -/

/-- `s.toLowerCase()`. -/
def lowerStr (s : String) : String := ⟨s.data.map Char.toLower⟩

/-- `needle` is a prefix of `hay` (character lists). -/
def hasPrefixSeq (needle hay : List Char) : Bool :=
  match needle, hay with
  | [], _ => true
  | _ :: _, [] => false
  | a :: as, b :: bs => a == b && hasPrefixSeq as bs

/-- `hay.includes(needle)` on character lists. -/
def containsSeq (hay needle : List Char) : Bool :=
  match hay with
  | [] => needle.isEmpty
  | _ :: t => hasPrefixSeq needle hay || containsSeq t needle

/-- `hay.includes(needle)` for strings (JavaScript `String.prototype.includes`). -/
def strIncludes (hay needle : String) : Bool := containsSeq hay.data needle.data

/-- `s.includes('.')`-style single character containment. -/
def strHasChar (s : String) (c : Char) : Bool := s.data.contains c

/-! ### JavaScript value model

A metadata value is a primitive or a reference into a heap of composite
objects (arrays / plain objects).  The heap makes reference identity, shared
substructure and cycles representable, exactly what the sanitizer's `WeakSet`
cycle guard is about. -/

inductive JsVal where
  | null
  | str (s : String)
  | num (n : Int)
  | bool (b : Bool)
  | ref (addr : Nat)
deriving DecidableEq, Repr

inductive HObj where
  | arr (items : List JsVal)
  | obj (fields : List (String × JsVal))
deriving DecidableEq, Repr

abbrev Heap := List (Nat × HObj)

def heapLookup (h : Heap) (a : Nat) : Option HObj :=
  match h with
  | [] => none
  | (b, o) :: t => if b = a then some o else heapLookup t a

/-! ### Sanitizer (src/sanitizer.ts) -/

/-- The fields of `SanitizationConfig` that the traversal logic of
`LogSanitizer` reads (the per-detector toggles only influence the opaque
`detectAndMask` parameter below). -/
structure SanitizationConfig where
  enabled : Bool
  maskWith : String
  maxDepth : Nat
  keysDenylist : List String
  keysAllowlist : List String
  fieldsHashInsteadOfMask : List String
deriving DecidableEq, Repr

/-- Environment of one `LogSanitizer` instance.

`detectAndMask` stands for `LogSanitizer.detectAndMask` (regex pattern
machinery built on external npm packages), `hashValue` for the SHA-256 digest
of `crypto`; both are opaque string transformers here.  `timeUp k` is the
result of the `k`-th `Date.now() - startTime > maxTime` test of one
`sanitize` call (the wall clock is external).  `heap` holds the composite
metadata objects. -/
structure SanitizerEnv where
  cfg : SanitizationConfig
  detectAndMask : String → String
  hashValue : String → String
  timeUp : Nat → Bool
  heap : Heap

/-- The constructor clamps the depth: `this.config.maxDepth = Math.max(1,
this.config.maxDepth)` (sanitizer.ts line 54). -/
def validatedMaxDepth (env : SanitizerEnv) : Nat := max 1 env.cfg.maxDepth

/-- Output of sanitizing one value.  `raw v` is a value returned unmodified
(sharing the input structure), the other constructors are the freshly built
sanitized copies. -/
inductive SanVal where
  | raw (v : JsVal)
  | str (s : String)
  | arr (items : List SanVal)
  | obj (fields : List (String × SanVal))
deriving Repr

/-- Denylist / allowlist key test (sanitizer.ts lines 210-217 and 236-243):
keys containing `'.'` never match, otherwise exact match against the
lower-cased key. -/
def plainKeyMatches (listKey lowerKey : String) : Bool :=
  if strHasChar listKey '.' then false else listKey == lowerKey

mutual

/-- `LogSanitizer.sanitizeObject` (sanitizer.ts lines 154-271) applied to one
value, at recursion depth `depth`, with the mutable `WeakSet` of visited
composites threaded as the address list `seen` and the `Date.now()` call
counter threaded as `tick`.  Returns the sanitized value, the redaction
count, the truncation flag, and the updated `seen` / `tick`; `Except.error`
is the thrown `'Circular reference detected'`. -/
def sanOne (env : SanitizerEnv) (v : JsVal) (depth : Nat) (seen : List Nat)
    (tick : Nat) : Except Unit (SanVal × Nat × Bool × List Nat × Nat) :=
  if depth > validatedMaxDepth env then
    .ok (.raw v, 0, true, seen, tick)
  else if env.timeUp tick then
    .ok (.str env.cfg.maskWith, 1, true, seen, tick + 1)
  else
    match v with
    | .null => .ok (.raw v, 0, false, seen, tick + 1)
    | .str s =>
        let s' := env.detectAndMask s
        .ok (.str s', if s' == s then 0 else 1, false, seen, tick + 1)
    | .num _ => .ok (.raw v, 0, false, seen, tick + 1)
    | .bool _ => .ok (.raw v, 0, false, seen, tick + 1)
    | .ref a =>
        if a ∈ seen then .error ()
        else
          match heapLookup env.heap a with
          | some (.arr items) => do
              let (rs, red, tr, seen2, tick2) ←
                sanItems env items (depth + 1) (a :: seen) (tick + 1)
              .ok (.arr rs, red, tr, seen2, tick2)
          | some (.obj fields) => do
              let (rs, red, tr, seen2, tick2) ←
                sanFields env fields (depth + 1) (a :: seen) (tick + 1)
              .ok (.obj rs, red, tr, seen2, tick2)
          | none => .ok (.raw v, 0, false, a :: seen, tick + 1)
termination_by (validatedMaxDepth env + 1 - depth, 0)

/-- The array loop of `sanitizeObject` (lines 185-198); `depth` is already
the item depth (the loop recurses with `depth + 1`). -/
def sanItems (env : SanitizerEnv) (items : List JsVal) (depth : Nat)
    (seen : List Nat) (tick : Nat) :
    Except Unit (List SanVal × Nat × Bool × List Nat × Nat) :=
  match items with
  | [] => .ok ([], 0, false, seen, tick)
  | x :: xs => do
      let (r, red, tr, seen1, tick1) ← sanOne env x depth seen tick
      let (rs, reds, trs, seen2, tick2) ← sanItems env xs depth seen1 tick1
      .ok (r :: rs, red + reds, tr || trs, seen2, tick2)
termination_by (validatedMaxDepth env + 1 - depth, items.length + 1)

/-- The object key loop of `sanitizeObject` (lines 200-267); `depth` is
already the depth used when recursing into non-string values (the loop
recurses with `depth + 1`).  Priority per key: allowlist pass-through,
hash-instead-of-mask, denylist mask, string pattern detection, recursion. -/
def sanFields (env : SanitizerEnv) (fields : List (String × JsVal))
    (depth : Nat) (seen : List Nat) (tick : Nat) :
    Except Unit (List (String × SanVal) × Nat × Bool × List Nat × Nat) :=
  match fields with
  | [] => .ok ([], 0, false, seen, tick)
  | (key, value) :: rest =>
      let lowerKey := lowerStr key
      if env.cfg.keysAllowlist.any (fun k => plainKeyMatches k lowerKey) then do
        let (rs, reds, trs, seen2, tick2) ← sanFields env rest depth seen tick
        .ok ((key, .raw value) :: rs, reds, trs, seen2, tick2)
      else if env.cfg.fieldsHashInsteadOfMask.contains lowerKey then
        match value with
        | .str s => do
            let (rs, reds, trs, seen2, tick2) ← sanFields env rest depth seen tick
            .ok ((key, .str (env.hashValue s)) :: rs, 1 + reds, trs, seen2, tick2)
        | _ => do
            let (rs, reds, trs, seen2, tick2) ← sanFields env rest depth seen tick
            .ok ((key, .raw value) :: rs, reds, trs, seen2, tick2)
      else if env.cfg.keysDenylist.any (fun k => plainKeyMatches k lowerKey) then do
        let (rs, reds, trs, seen2, tick2) ← sanFields env rest depth seen tick
        .ok ((key, .str env.cfg.maskWith) :: rs, 1 + reds, trs, seen2, tick2)
      else
        match value with
        | .str s => do
            let s' := env.detectAndMask s
            let (rs, reds, trs, seen2, tick2) ← sanFields env rest depth seen tick
            .ok ((key, .str s') :: rs, (if s' == s then 0 else 1) + reds, trs,
                 seen2, tick2)
        | _ => do
            let (r, red, tr, seen1, tick1) ← sanOne env value depth seen tick
            let (rs, reds, trs, seen2, tick2) ← sanFields env rest depth seen1 tick1
            .ok ((key, r) :: rs, red + reds, tr || trs, seen2, tick2)
termination_by (validatedMaxDepth env + 1 - depth, fields.length + 1)

end

/-- The `_sanitization` metadata object appended by `sanitize`
(sanitizer.ts lines 120-125). -/
def sanMetaVal (red : Nat) (tr : Bool) : SanVal :=
  .obj [("redactionCount", .raw (.num red)), ("truncated", .raw (.bool tr))]

/-- The `_sanitization` object of the dedicated sanitization-error result
(sanitizer.ts lines 137-143). -/
def sanErrorMetaVal : SanVal :=
  .obj [("sanitizationError", .raw (.bool true)),
        ("redactionCount", .raw (.num 0)),
        ("truncated", .raw (.bool true))]

/-- `sanitizedMeta._sanitization = {...}` (lines 120-125): the flag object is
attached only when the sanitized metadata is a (non-null) object.  On a
JavaScript array the assignment creates a non-element property invisible to
the element structure modelled here, so arrays are left as they are. -/
def attachSanMeta (v : SanVal) (red : Nat) (tr : Bool) : SanVal :=
  match v with
  | .obj fields => .obj (fields ++ [("_sanitization", sanMetaVal red tr)])
  | other => other

/-- Result of `LogSanitizer.sanitize`: the sanitized `{ message, data }`
envelope plus the audit counters. -/
structure SanitizeResult where
  message : String
  data : Option SanVal
  redactionCount : Nat
  truncated : Bool
deriving Repr

/-- `LogSanitizer.sanitize` (sanitizer.ts lines 81-149).

Tick 0 is the time check of the message scan closure (lines 98-104); the
metadata traversal starts at tick 1.  The metadata walk runs only when the
metadata is a non-null object (`meta && typeof meta === 'object'`), i.e. a
heap reference.  A thrown cycle error is caught and replaced by the dedicated
error result (lines 132-148). -/
def sanitize (env : SanitizerEnv) (message : String) (meta : Option JsVal) :
    SanitizeResult :=
  if ¬ env.cfg.enabled then
    { message := message, data := meta.map SanVal.raw,
      redactionCount := 0, truncated := false }
  else
    let msgExpired := env.timeUp 0
    let sanitizedMessage := if msgExpired then message else env.detectAndMask message
    let msgRed : Nat := if sanitizedMessage == message then 0 else 1
    match meta with
    | some (.ref a) =>
        match sanOne env (.ref a) 0 [] 1 with
        | .ok (sv, red, tr, _, _) =>
            let totalRed := msgRed + red
            let totalTr := msgExpired || tr
            { message := sanitizedMessage,
              data := some (attachSanMeta sv totalRed totalTr),
              redactionCount := totalRed, truncated := totalTr }
        | .error _ =>
            { message := env.cfg.maskWith,
              data := some (.obj [("_sanitization", sanErrorMetaVal)]),
              redactionCount := 0, truncated := true }
    | _ =>
        { message := sanitizedMessage, data := meta.map SanVal.raw,
          redactionCount := msgRed, truncated := msgExpired }

/-! ### Debug scope filter (LogsGateway: matchesIdentity, getSearchableLogText,
updateBetweenRangeState, shouldIncludeLog) -/

inductive RuleAction where
  | include
  | exclude
deriving DecidableEq, Repr

/-- `BetweenRule` (types.ts): a stateful range filter rule. -/
structure BetweenRule where
  action : RuleAction
  exactMatch : Option Bool
  searchLog : Option Bool
  startIdentities : List String
  endIdentities : List String
deriving DecidableEq, Repr

structure ScopingSettings where
  status : String
  filterIdentities : Option (List String)
  filteredApplications : Option (List String)
  between : Option (List BetweenRule)
deriving DecidableEq, Repr

structure DebugScopingConfig where
  scoping : ScopingSettings
deriving DecidableEq, Repr

/-- `meta._routing` (types.ts `RoutingMeta`). -/
structure RoutingMeta where
  allowedOutputs : Option (List String)
  blockOutputs : Option (List String)
deriving DecidableEq, Repr

/-- The fields of a `LogMeta` map that the pipeline decisions read.  A real
`LogMeta` is an open map; the fields not modelled here reach the decisions
only through the opaque `stringifyMeta` parameter. -/
structure LogMeta where
  identity : Option String
  source : Option String
  runId : Option String
  shadowRunId : Option String
  routing : Option RoutingMeta
deriving DecidableEq, Repr

/-- The gateway state that the scope filter reads: the resolved scoping
configuration (`this.config.debugScoping || this.debugScopingConfig`) and
the external `JSON.stringify` used by `getSearchableLogText`. -/
structure GatewayEnv where
  scoping : Option DebugScopingConfig
  stringifyMeta : LogMeta → String

/-- `LogsGateway.matchesIdentity`: exact (case sensitive) or substring
(case insensitive) match of the search string against a pattern list.  The
JavaScript `!searchString` guard makes the empty string match nothing. -/
def matchesIdentity (searchString : String) (identityList : List String)
    (exactMatch : Bool) : Bool :=
  if searchString == "" || identityList.isEmpty then false
  else identityList.any fun identity =>
    if exactMatch then searchString == identity
    else strIncludes (lowerStr searchString) (lowerStr identity)

/-- `LogsGateway.getSearchableLogText`: message, identity and stringified
metadata joined with spaces (empty message / identity are falsy and
skipped). -/
def getSearchableLogText (env : GatewayEnv) (message : String)
    (identity : Option String) (meta : Option LogMeta) : String :=
  let parts :=
    (if message == "" then [] else [message]) ++
    (match identity with
     | some i => if i == "" then [] else [i]
     | none => []) ++
    (match meta with
     | some m => [env.stringifyMeta m]
     | none => [])
  String.intercalate " " parts

/-- The search text of one `BetweenRule` (updateBetweenRangeState lines
399-402): full log text when `searchLog`, the identity alone otherwise. -/
def betweenSearchText (env : GatewayEnv) (message : String)
    (identity : Option String) (meta : Option LogMeta) (rule : BetweenRule) :
    String :=
  if rule.searchLog.getD false then getSearchableLogText env message identity meta
  else identity.getD ""

/-- One iteration of the initialization loop of `updateBetweenRangeState`
(lines 382-387): a rule with empty `startIdentities` is (re-)added to the
active set on every call. -/
def initBetweenStep (rules : List BetweenRule) (s : Finset ℕ) (i : ℕ) :
    Finset ℕ :=
  match rules[i]? with
  | some rule => if rule.startIdentities.isEmpty then insert i s else s
  | none => s

/-- One iteration of the processing loop of `updateBetweenRangeState`
(lines 390-432): toggle on simultaneous start/end match, else activate on
start match, else deactivate on end match. -/
def procBetweenStep (env : GatewayEnv) (message : String)
    (identity : Option String) (meta : Option LogMeta)
    (rules : List BetweenRule) (s : Finset ℕ) (i : ℕ) : Finset ℕ :=
  match rules[i]? with
  | none => s
  | some rule =>
    let exactMatch := rule.exactMatch.getD false
    let searchText := betweenSearchText env message identity meta rule
    let matchesStart :=
      if rule.startIdentities.isEmpty then false
      else matchesIdentity searchText rule.startIdentities exactMatch
    let matchesEnd :=
      if rule.endIdentities.isEmpty then false
      else matchesIdentity searchText rule.endIdentities exactMatch
    if matchesStart && matchesEnd then
      (if i ∈ s then s.erase i else insert i s)
    else if matchesStart then insert i s
    else if matchesEnd then
      (if rule.endIdentities.isEmpty then s else s.erase i)
    else s

/-- `LogsGateway.updateBetweenRangeState` (lines 367-433), acting on the
process-lifetime `activeBetweenRanges` set of active rule indices. -/
def updateBetweenRangeState (env : GatewayEnv) (st : Finset ℕ)
    (message : String) (identity : Option String) (meta : Option LogMeta) :
    Finset ℕ :=
  match env.scoping with
  | none => st
  | some sc =>
    if sc.scoping.status ≠ "enabled" then st
    else
      match sc.scoping.between with
      | none => st
      | some rules =>
        if rules.isEmpty then st
        else
          let st1 := (List.range rules.length).foldl (initBetweenStep rules) st
          (List.range rules.length).foldl
            (procBetweenStep env message identity meta rules) st1

/-- The active-set scan of `shouldIncludeLog` (lines 486-497): does any
currently-active rule index carry the given action?  (Indices without a rule
are skipped, as in the code.) -/
def anyActiveRule (rules : List BetweenRule) (active : Finset ℕ)
    (act : RuleAction) : Bool :=
  decide (∃ i ∈ active, ∃ rule, rules[i]? = some rule ∧ rule.action = act)

/-- `LogsGateway.shouldIncludeLog` (lines 445-518).  Returns the inclusion
decision together with the updated `activeBetweenRanges` state. -/
def shouldIncludeLog (env : GatewayEnv) (st : Finset ℕ) (message : String)
    (identity : Option String) (appName : Option String)
    (meta : Option LogMeta) : Bool × Finset ℕ :=
  match env.scoping with
  | none => (true, st)
  | some sc =>
    if sc.scoping.status ≠ "enabled" then (true, st)
    else
      let fid := sc.scoping.filterIdentities.getD []
      let fapp := sc.scoping.filteredApplications.getD []
      let rules := sc.scoping.between.getD []
      let hasIdentityFilter := !fid.isEmpty
      let hasAppFilter := !fapp.isEmpty
      let matchesExistingFilter :=
        (hasIdentityFilter &&
          (match identity with
           | some i => fid.contains i
           | none => false)) ||
        (hasAppFilter &&
          (match appName with
           | some a => fapp.contains a
           | none => false))
      if !hasIdentityFilter && !hasAppFilter && rules.isEmpty then (true, st)
      else if rules.isEmpty then (matchesExistingFilter, st)
      else
        let st' := updateBetweenRangeState env st message identity meta
        if anyActiveRule rules st' .include then (true, st')
        else if anyActiveRule rules st' .exclude then (false, st')
        else (matchesExistingFilter, st')

/-! ### Shadow sink (src/outputs/shadow-sink.ts) -/

/-- The fields of a `LogEnvelope` that `ShadowSink` reads, plus the message
to tell entries apart.  `shadowRunId` is `envelope.data?._shadow?.runId`,
`blockOutputs` is `envelope._routing?.blockOutputs`. -/
structure Envelope where
  message : String
  runId : Option String
  shadowRunId : Option String
  blockOutputs : Option (List String)
deriving DecidableEq, Repr

structure RollingBufferConfig where
  maxEntries : Nat
  maxAgeMs : Nat
deriving DecidableEq, Repr

/-- The `ShadowConfig` fields driving capture decisions (format, directory
and default ttl only shape the on-disk artifacts). -/
structure ShadowConfig where
  enabled : Bool
  respectRoutingBlocks : Bool
  rollingBuffer : RollingBufferConfig
deriving DecidableEq, Repr

/-- The mutable per-run metadata tracked in `activeRuns` (only the entry
counter is relevant to the capture logic). -/
structure ShadowRunMeta where
  entryCount : Nat
deriving DecidableEq, Repr

/-- One rolling-buffer entry: envelope + raw (pre-sanitization) data +
capture time.  The raw data is opaque to the sink and modelled as a tag. -/
structure BufferedEntry where
  envelope : Envelope
  rawData : Nat
  timestamp : Nat
deriving DecidableEq, Repr

/-- One record of a run's on-disk data file: `writeToFile` appends the
envelope with its `data` field replaced by the raw data. -/
structure FileRecord where
  envelope : Envelope
  rawData : Nat
deriving DecidableEq, Repr

/-- Mutable state of one `ShadowSink`: the `activeRuns` map, the rolling
buffer, and the per-run on-disk data files (keyed by runId). -/
structure SinkState where
  activeRuns : List (String × ShadowRunMeta)
  rollingBuffer : List BufferedEntry
  files : List (String × List FileRecord)
deriving DecidableEq, Repr

def assocLookup {α : Type} (l : List (String × α)) (k : String) : Option α :=
  match l with
  | [] => none
  | (k', v) :: t => if k' == k then some v else assocLookup t k

/-- `Map.set` semantics: replace the existing binding or append a new one. -/
def assocSet {α : Type} (l : List (String × α)) (k : String) (v : α) :
    List (String × α) :=
  match l with
  | [] => [(k, v)]
  | (k', v') :: t => if k' == k then (k, v) :: t else (k', v') :: assocSet t k v

/-- `Map.delete` semantics. -/
def assocRemove {α : Type} (l : List (String × α)) (k : String) :
    List (String × α) :=
  match l with
  | [] => []
  | (k', v') :: t => if k' == k then t else (k', v') :: assocRemove t k

/-- Append records to a run's data file (`fs.appendFileSync`; a missing file
is created by the first append). -/
def filesAppend (files : List (String × List FileRecord)) (k : String)
    (recs : List FileRecord) : List (String × List FileRecord) :=
  match assocLookup files k with
  | some old => assocSet files k (old ++ recs)
  | none => files ++ [(k, recs)]

/-- The contents of a run's data file (empty when never written). -/
def fileContents (st : SinkState) (rid : String) : List FileRecord :=
  (assocLookup st.files rid).getD []

/-- `ShadowSink.getTargetRunId` (lines 277-289): per-entry
`data._shadow.runId` override first, then the envelope `runId`. -/
def getTargetRunId (env : Envelope) : Option String :=
  match env.shadowRunId with
  | some rid => some rid
  | none => env.runId

/-- `ShadowSink.shouldCapture` (lines 255-272). -/
def shouldCapture (cfg : ShadowConfig) (st : SinkState) (env : Envelope) :
    Bool :=
  if !cfg.enabled && st.activeRuns.isEmpty then false
  else if cfg.respectRoutingBlocks &&
      ((env.blockOutputs.getD []).contains "file" ||
       (env.blockOutputs.getD []).contains "shadow") then false
  else
    match getTargetRunId env with
    | some rid => (assocLookup st.activeRuns rid).isSome
    | none => false

/-- `ShadowSink.addToBuffer` (lines 294-318): push, trim one from the front
when over capacity, then trim by age.  The age cutoff `Date.now() - maxAgeMs`
uses truncated subtraction: a negative JavaScript cutoff keeps every entry,
exactly as the cutoff 0 does on `Nat` timestamps. -/
def addToBuffer (cfg : ShadowConfig) (st : SinkState) (env : Envelope)
    (rawData : Nat) (now : Nat) : SinkState :=
  if cfg.rollingBuffer.maxEntries == 0 then st
  else
    let buf1 := st.rollingBuffer ++ [⟨env, rawData, now⟩]
    let buf2 :=
      if buf1.length > cfg.rollingBuffer.maxEntries then buf1.drop 1 else buf1
    let buf3 :=
      if cfg.rollingBuffer.maxAgeMs > 0 then
        buf2.filter (fun e => now - cfg.rollingBuffer.maxAgeMs ≤ e.timestamp)
      else buf2
    { st with rollingBuffer := buf3 }

/-- Increment the entry counter of an active run (`runMeta.entryCount++`). -/
def bumpRunCount (runs : List (String × ShadowRunMeta)) (rid : String) :
    List (String × ShadowRunMeta) :=
  match assocLookup runs rid with
  | some m => assocSet runs rid ⟨m.entryCount + 1⟩
  | none => runs

namespace ShadowSink

/-- `ShadowSink.write` (lines 83-115): always insert into the rolling buffer
first (when configured), then append to the target run's file only when
`shouldCapture` passes and the resolved runId is active.  File write
failures are environmental and out of scope: appends are modelled as
succeeding. -/
def write (cfg : ShadowConfig) (st : SinkState) (env : Envelope)
    (rawData : Nat) (now : Nat) : SinkState :=
  let st1 :=
    if cfg.rollingBuffer.maxEntries > 0 then addToBuffer cfg st env rawData now
    else st
  if !shouldCapture cfg st1 env then st1
  else
    match getTargetRunId env with
    | none => st1
    | some rid =>
      match assocLookup st1.activeRuns rid with
      | none => st1
      | some meta =>
          { st1 with
            files := filesAppend st1.files rid [⟨env, rawData⟩],
            activeRuns := assocSet st1.activeRuns rid ⟨meta.entryCount + 1⟩ }

/-- `ShadowSink.flushBufferForRunId` (lines 323-344): replay every buffered
entry whose resolved runId matches, in buffer order, into the run's file,
incrementing the counter per entry.  The buffer itself is left untouched. -/
def flushBufferForRunId (st : SinkState) (rid : String) : SinkState :=
  let matching :=
    st.rollingBuffer.filter (fun e => getTargetRunId e.envelope == some rid)
  matching.foldl
    (fun s e =>
      { s with
        files := filesAppend s.files rid [⟨e.envelope, e.rawData⟩],
        activeRuns := bumpRunCount s.activeRuns rid })
    st

/-- `ShadowSink.enable` (lines 120-150): register the run with a zero entry
counter, then replay the rolling buffer for it.  (Directory and index
creation shape the disk only.) -/
def enable (st : SinkState) (rid : String) : SinkState :=
  let st1 := { st with activeRuns := assocSet st.activeRuns rid ⟨0⟩ }
  flushBufferForRunId st1 rid

/-- `ShadowSink.disable` (lines 155-166).  The error channel shows what the
caller can observe: an unknown runId makes the method return silently
(`if (!runMeta) return;`) — no error is surfaced. -/
def disable (st : SinkState) (rid : String) : Except String SinkState :=
  match assocLookup st.activeRuns rid with
  | none => .ok st
  | some _ => .ok { st with activeRuns := assocRemove st.activeRuns rid }

/-- `ShadowSink.export` (lines 189-201; `export` is a Lean keyword, hence
the name): an unknown runId throws the not-found error; otherwise the run's
data artifact is copied (an external file-system effect). -/
def exportRun (st : SinkState) (rid : String) : Except String Unit :=
  match assocLookup st.activeRuns rid with
  | none => .error ("Shadow capture not found for runId: " ++ rid)
  | some _ => .ok ()

end ShadowSink

/-- One stored run directory as `cleanupExpired` sees it on disk:
`isDir` — the directory-entry check, `hasIndex` — `index.json` exists,
`readOk` — reading and parsing the index succeeds, `updatedAt` —
`new Date(index.updatedAt).getTime()`, and the index ttl. -/
structure StoredRun where
  name : String
  isDir : Bool
  hasIndex : Bool
  readOk : Bool
  updatedAt : Int
  ttlMs : Int
deriving DecidableEq, Repr

/-- The scan loop of `ShadowSink.cleanupExpired` (lines 210-243).  The
`try/catch` wraps the whole loop: a failing run read throws out of the loop
and the already-accumulated count is returned, so `acc` is returned as-is at
that point and the remaining entries are never scanned. -/
def cleanupLoop (runs : List StoredRun) (now : Int) (acc : Nat × List String) :
    Nat × List String :=
  match runs with
  | [] => acc
  | r :: rest =>
    if !r.isDir then cleanupLoop rest now acc
    else if !r.hasIndex then cleanupLoop rest now acc
    else if !r.readOk then acc
    else if r.updatedAt + r.ttlMs < now then
      cleanupLoop rest now (acc.1 + 1, acc.2 ++ [r.name])
    else cleanupLoop rest now acc

/-- `ShadowSink.cleanupExpired` (lines 206-246): returns the number of
deleted runs together with the names of the deleted run directories. -/
def cleanupExpired (runs : List StoredRun) (now : Int) : Nat × List String :=
  cleanupLoop runs now (0, [])

/-! ### Router (LogsGateway.shouldSend and the unified-logger dispatch) -/

/-- `LogsGateway.shouldSend` (lines 272-287): per-entry block list, then
allow list, then the hard safety rule keeping gateway-internal entries away
from the unified-logger destination. -/
def shouldSend (outputName : String) (meta : Option LogMeta) : Bool :=
  let routing := meta.bind LogMeta.routing
  if ((routing.bind RoutingMeta.blockOutputs).getD []).contains outputName then
    false
  else if (match routing.bind RoutingMeta.allowedOutputs with
           | some allowed => !allowed.contains outputName
           | none => false) then false
  else if (meta.bind LogMeta.source == some "logs-gateway-internal") &&
      outputName == "unified-logger" then false
  else true

/-- The unified-logger dispatch guard of `LogsGateway.emit` (lines 831-835):
the entry reaches the unified-logger writer only when the destination is
enabled, a sink is wired, and `shouldSend` passes for the enriched meta. -/
def dispatchesToUnified (enableUnifiedLogger hasUnifiedSink : Bool)
    (enriched : LogMeta) : Bool :=
  enableUnifiedLogger && hasUnifiedSink &&
    shouldSend "unified-logger" (some enriched)

/-! ### Concrete scenarios used by the claims -/

/-- The default `keysDenylist` of the sanitizer constructor (sanitizer.ts
line 47). -/
def defaultDeny : List String :=
  ["authorization", "token", "secret", "api_key", "passwd", "password"]

/-- Sanitizer environment of the depth-cutoff scenario: `maxDepth = 2`,
metadata `{a:{b:{c:{password:'x'}}}}`, no time pressure. -/
def envC2 : SanitizerEnv :=
  { cfg := { enabled := true, maskWith := "[REDACTED]", maxDepth := 2,
             keysDenylist := defaultDeny, keysAllowlist := [],
             fieldsHashInsteadOfMask := [] },
    detectAndMask := id, hashValue := id, timeUp := fun _ => false,
    heap := [(0, .obj [("a", .ref 1)]), (1, .obj [("b", .ref 2)]),
             (2, .obj [("c", .ref 3)]), (3, .obj [("password", .str "x")])] }

/-- Same metadata, but the 100ms budget expires from the second `Date.now()`
check on, i.e. at the first recursion step of the metadata traversal. -/
def envC1 : SanitizerEnv :=
  { envC2 with timeUp := fun t => decide (1 ≤ t) }

/-- `maxDepth = 1` and metadata `{a:{b:c}}` where `c = {self: c}` is a
composite value reachable from itself: the metadata contains a cycle, but
the cycle sits strictly below the depth cutoff. -/
def envC3 : SanitizerEnv :=
  { cfg := { enabled := true, maskWith := "[REDACTED]", maxDepth := 1,
             keysDenylist := defaultDeny, keysAllowlist := [],
             fieldsHashInsteadOfMask := [] },
    detectAndMask := id, hashValue := id, timeUp := fun _ => false,
    heap := [(0, .obj [("a", .ref 1)]), (1, .obj [("b", .ref 2)]),
             (2, .obj [("self", .ref 2)])] }

/-! ### C1 — time budget expiry during the metadata traversal -/

/-- C1 counterexample.  The claim says that on time-budget expiry the
remaining structure is returned unmodified with nothing added to
`redactionCount`.  On the code, expiring at the first recursion step of the
traversal of `{a:"hello"}` replaces the whole metadata with the mask token
and counts one redaction (sanitizer.ts lines 159-161). -/
theorem c1_counterexample :
    sanitize envC1 "m" (some (.ref 0)) =
      { message := "m", data := some (.str "[REDACTED]"),
        redactionCount := 1, truncated := true } ∧
    (some (SanVal.str "[REDACTED]") = (Option.map SanVal.raw (some (JsVal.ref 0))) → False) := by
  constructor
  · simp +decide [sanitize, sanOne, envC1, envC2, validatedMaxDepth,
      defaultDeny, attachSanMeta]
  · intro h
    simp [Option.map] at h

/-- C1 (amended): whenever the wall-clock budget is found expired at a
recursion step of the metadata traversal (at any node not already cut off by
depth), the not-yet-visited node is replaced by the configured mask token,
counted as one redaction, and the result is marked truncated — it is not
returned unmodified. -/
theorem c1_time_expiry_masks_node (env : SanitizerEnv) (v : JsVal)
    (depth : Nat) (seen : List Nat) (tick : Nat)
    (hd : depth ≤ validatedMaxDepth env) (ht : env.timeUp tick = true) :
    sanOne env v depth seen tick =
      .ok (.str env.cfg.maskWith, 1, true, seen, tick + 1) := by
  rw [sanOne.eq_def, if_neg (by omega), if_pos ht]

/-- Witness for `c1_time_expiry_masks_node` at the environment of the
counterexample, node `{a:"hello"}`, tick 1. -/
theorem c1_time_expiry_masks_node_witness :
    0 ≤ validatedMaxDepth envC1 ∧ envC1.timeUp 1 = true ∧
    sanOne envC1 (.ref 0) 0 [] 1 =
      .ok (.str envC1.cfg.maskWith, 1, true, [], 2) :=
  ⟨by decide, by decide, c1_time_expiry_masks_node envC1 (.ref 0) 0 [] 1
      (by decide) (by decide)⟩

/-! ### C2 — depth cutoff -/

/-- C2: any node reached by the traversal strictly deeper than the
configured `maxDepth` is returned unmodified, uncounted and marked
truncated (sanitizer.ts lines 154-157); and in the concrete scenario
`maxDepth=2`, `{a:{b:{c:{password:'x'}}}}`, the `password` value at depth 3
is returned unchanged (shared as a raw reference) with `truncated = true`
and no redactions. -/
theorem c2_depth_cutoff :
    (∀ (env : SanitizerEnv) (v : JsVal) (depth : Nat) (seen : List Nat)
        (tick : Nat), depth > validatedMaxDepth env →
        sanOne env v depth seen tick = .ok (.raw v, 0, true, seen, tick)) ∧
    sanitize envC2 "msg" (some (.ref 0)) =
      { message := "msg",
        data := some (.obj
          [("a", .obj [("b", .obj [("c", .raw (.ref 3))])]),
           ("_sanitization", sanMetaVal 0 true)]),
        redactionCount := 0, truncated := true } := by
  constructor
  · intro env v depth seen tick h
    rw [sanOne.eq_def, if_pos h]
  · simp +decide [sanitize, sanOne, sanItems, sanFields, envC2,
      validatedMaxDepth, heapLookup, attachSanMeta, plainKeyMatches,
      lowerStr, strHasChar, defaultDeny, Bind.bind, Except.bind]

/-- Witness for the depth-guard half of `c2_depth_cutoff` at depth 3 with
`maxDepth = 2`. -/
theorem c2_depth_cutoff_witness :
    3 > validatedMaxDepth envC2 ∧
    sanOne envC2 (.ref 3) 3 [] 0 = .ok (.raw (.ref 3), 0, true, [], 0) :=
  ⟨by decide, c2_depth_cutoff.1 envC2 (.ref 3) 3 [] 0 (by decide)⟩

/-! ### C3 — cycle guard -/

/-- C3 counterexample.  The metadata of `envC3` contains a cycle (the object
at address 2 holds a reference to itself), yet with `maxDepth = 1` the
traversal is cut off before ever visiting it: the call returns a normal
result — the message is not replaced by the mask token and no
sanitization-error marker is produced — contradicting the claim that every
cycle-containing metadata yields the dedicated sanitization-error result. -/
theorem c3_counterexample :
    heapLookup envC3.heap 2 = some (.obj [("self", .ref 2)]) ∧
    sanitize envC3 "m" (some (.ref 0)) =
      { message := "m",
        data := some (.obj
          [("a", .obj [("b", .raw (.ref 2))]),
           ("_sanitization", sanMetaVal 0 true)]),
        redactionCount := 0, truncated := true } ∧
    ("m" = envC3.cfg.maskWith → False) := by
  refine ⟨by decide, ?_, by decide⟩
  simp +decide [sanitize, sanOne, sanItems, sanFields, envC3,
    validatedMaxDepth, heapLookup, attachSanMeta, plainKeyMatches,
    lowerStr, strHasChar, defaultDeny, Bind.bind, Except.bind]

/-- C3 (amended): a cycle that the traversal actually reaches (within the
depth and time budget and not skipped by the per-key policy) makes the call
return the dedicated sanitization-error result: message replaced wholesale
by the mask token, `redactionCount = 0`, the error flag set, and no partial
output — here proved for a directly self-referential object under any mask,
any configured `maxDepth`, and arbitrary detector and hash functions.
Termination (no hang) holds for every input because the embedded traversal
is a total function. -/
theorem c3_reached_cycle_error (mask msg : String) (mdRaw : Nat)
    (detect hash : String → String) (a : Nat) :
    sanitize { cfg := { enabled := true, maskWith := mask, maxDepth := mdRaw,
                        keysDenylist := defaultDeny, keysAllowlist := [],
                        fieldsHashInsteadOfMask := [] },
               detectAndMask := detect, hashValue := hash,
               timeUp := fun _ => false,
               heap := [(a, .obj [("self", .ref a)])] }
        msg (some (.ref a)) =
      { message := mask,
        data := some (.obj [("_sanitization", sanErrorMetaVal)]),
        redactionCount := 0, truncated := true } := by
  have h1 : ¬ (1 > max 1 mdRaw) := by
    have := Nat.le_max_left 1 mdRaw
    omega
  simp +decide [sanitize, sanOne, sanFields, validatedMaxDepth, heapLookup,
    plainKeyMatches, lowerStr, strHasChar, defaultDeny, Bind.bind,
    Except.bind, h1]

/-! ### C7 — TTL cleanup -/

/-- A stored run whose index cannot be read (`readOk = false`). -/
def badRun : StoredRun :=
  { name := "r1", isDir := true, hasIndex := true, readOk := false,
    updatedAt := 0, ttlMs := 10 }

/-- A stored run that is expired at time 100. -/
def expiredRun : StoredRun :=
  { name := "r2", isDir := true, hasIndex := true, readOk := true,
    updatedAt := 0, ttlMs := 10 }

/-- C7 counterexample.  With two stored runs — the first failing to read,
the second expired — `cleanupExpired` returns 0 and deletes nothing: the
error on the first run aborts the whole scan (the `try/catch` of
shadow-sink.ts lines 210-243 wraps the loop, it is not per-run), so the
expired second run survives, contradicting "deletes exactly the runs whose
`lastUpdated + ttl < now`" and "does not prevent the remaining runs from
being scanned and deleted". -/
theorem c7_counterexample :
    cleanupExpired [badRun, expiredRun] 100 = (0, []) ∧
    expiredRun.updatedAt + expiredRun.ttlMs < 100 ∧
    expiredRun.isDir = true ∧ expiredRun.hasIndex = true ∧
    expiredRun.readOk = true := by
  refine ⟨?_, by decide, by decide, by decide, by decide⟩
  simp [cleanupExpired, cleanupLoop, badRun]

/-- The runs that an error-free scan deletes: directories with a readable
index whose `updatedAt + ttl` lies strictly before `now`. -/
def expiredAmong (runs : List StoredRun) (now : Int) : List StoredRun :=
  runs.filter fun r =>
    r.isDir && r.hasIndex && decide (r.updatedAt + r.ttlMs < now)

/-- The accumulator-passing characterization of the scan loop on error-free
inputs. -/
theorem cleanupLoop_ok (now : Int) :
    ∀ (runs : List StoredRun), (∀ r ∈ runs, r.readOk = true) →
    ∀ (acc : Nat × List String),
      cleanupLoop runs now acc =
        (acc.1 + (expiredAmong runs now).length,
         acc.2 ++ (expiredAmong runs now).map StoredRun.name) := by
  intro runs
  induction runs with
  | nil => intro _ acc; simp [cleanupLoop, expiredAmong]
  | cons r rest ih =>
    intro h acc
    have hr : r.readOk = true := h r (List.mem_cons_self r rest)
    have hrest : ∀ x ∈ rest, x.readOk = true :=
      fun x hx => h x (List.mem_cons_of_mem r hx)
    rw [cleanupLoop]
    by_cases hd : r.isDir
    · by_cases hi : r.hasIndex
      · by_cases he : r.updatedAt + r.ttlMs < now
        · simp [hd, hi, hr, he, ih hrest, expiredAmong]
          omega
        · simp [hd, hi, hr, he, ih hrest, expiredAmong]
      · simp [hd, hi, ih hrest, expiredAmong]
    · simp [hd, ih hrest, expiredAmong]

/-- The scan loop stops at the first run whose index read throws: everything
after it is never looked at. -/
theorem cleanupLoop_abort (now : Int) (bad : StoredRun)
    (hd : bad.isDir = true) (hi : bad.hasIndex = true)
    (hr : bad.readOk = false) :
    ∀ (pre rest : List StoredRun) (acc : Nat × List String),
      cleanupLoop (pre ++ bad :: rest) now acc = cleanupLoop pre now acc := by
  intro pre
  induction pre with
  | nil =>
    intro rest acc
    simp [cleanupLoop, hd, hi, hr]
  | cons p t ih =>
    intro rest acc
    rw [List.cons_append, cleanupLoop, cleanupLoop]
    by_cases h1 : p.isDir
    · by_cases h2 : p.hasIndex
      · by_cases h3 : p.readOk
        · by_cases h4 : p.updatedAt + p.ttlMs < now
          · simp [h1, h2, h3, h4, ih]
          · simp [h1, h2, h3, h4, ih]
        · simp [h1, h2, h3]
      · simp [h1, h2, ih]
    · simp [h1, ih]

/-- C7 (amended): when every run's index reads successfully,
`cleanupExpired(now)` deletes exactly the stored runs (directories with an
index) whose `lastUpdated + ttl < now` and returns their count; but an error
while processing one run aborts the scan of all runs after it (the error is
logged and not fatal to the caller, which still receives the count
accumulated so far). -/
theorem c7_cleanup_characterization (now : Int) :
    (∀ (runs : List StoredRun), (∀ r ∈ runs, r.readOk = true) →
      cleanupExpired runs now =
        ((expiredAmong runs now).length,
         (expiredAmong runs now).map StoredRun.name)) ∧
    (∀ (bad : StoredRun) (pre rest₁ rest₂ : List StoredRun),
      bad.isDir = true → bad.hasIndex = true → bad.readOk = false →
      cleanupExpired (pre ++ bad :: rest₁) now =
        cleanupExpired (pre ++ bad :: rest₂) now) := by
  constructor
  · intro runs h
    have := cleanupLoop_ok now runs h (0, [])
    simpa [cleanupExpired] using this
  · intro bad pre rest₁ rest₂ hd hi hr
    simp [cleanupExpired, cleanupLoop_abort now bad hd hi hr]

/-- Witness for `c7_cleanup_characterization`: an error-free two-run store
(one fresh, one expired) deletes exactly the expired one, and swapping the
tail after a bad run does not change the result. -/
theorem c7_cleanup_characterization_witness :
    ((∀ r ∈ [expiredRun,
        ({ name := "fresh", isDir := true, hasIndex := true, readOk := true,
           updatedAt := 95, ttlMs := 10 } : StoredRun)], r.readOk = true) ∧
      cleanupExpired [expiredRun,
        ({ name := "fresh", isDir := true, hasIndex := true, readOk := true,
           updatedAt := 95, ttlMs := 10 } : StoredRun)] 100 = (1, ["r2"])) ∧
    (badRun.isDir = true ∧ badRun.hasIndex = true ∧ badRun.readOk = false ∧
      cleanupExpired ([] ++ badRun :: [expiredRun]) 100 =
        cleanupExpired ([] ++ badRun :: []) 100) := by
  constructor
  · refine ⟨by decide, ?_⟩
    have h := (c7_cleanup_characterization 100).1 [expiredRun,
      ({ name := "fresh", isDir := true, hasIndex := true, readOk := true,
         updatedAt := 95, ttlMs := 10 } : StoredRun)] (by decide)
    rw [h]
    decide
  · refine ⟨by decide, by decide, by decide, ?_⟩
    exact (c7_cleanup_characterization 100).2 badRun [] [expiredRun] []
      (by decide) (by decide) (by decide)

/-! ### C8 — export / disable on an unknown runId -/

/-- The empty sink state. -/
def emptySink : SinkState := { activeRuns := [], rollingBuffer := [], files := [] }

/-- C8 counterexample.  On an unknown runId, `export` surfaces the not-found
error, but `disable` returns silently (`if (!runMeta) return;`,
shadow-sink.ts lines 156-159): no error reaches the caller, contradicting
the claim that `disable` likewise surfaces a not-found error. -/
theorem c8_counterexample :
    ShadowSink.exportRun emptySink "unknown" =
      .error "Shadow capture not found for runId: unknown" ∧
    ShadowSink.disable emptySink "unknown" = .ok emptySink := by
  constructor
  · simp [ShadowSink.exportRun, emptySink, assocLookup]
  · simp [ShadowSink.disable, emptySink, assocLookup]

/-- C8 (amended): for every runId absent from the active-runs set, `export`
fails with the not-found error surfaced to the caller, while `disable` is a
silent no-op that surfaces nothing and leaves the state unchanged. -/
theorem c8_unknown_runid (st : SinkState) (rid : String)
    (h : assocLookup st.activeRuns rid = none) :
    ShadowSink.exportRun st rid =
      .error ("Shadow capture not found for runId: " ++ rid) ∧
    ShadowSink.disable st rid = .ok st := by
  constructor
  · simp [ShadowSink.exportRun, h]
  · simp [ShadowSink.disable, h]

/-- Witness for `c8_unknown_runid` at the empty sink. -/
theorem c8_unknown_runid_witness :
    assocLookup emptySink.activeRuns "r9" = none ∧
    (ShadowSink.exportRun emptySink "r9" =
      .error ("Shadow capture not found for runId: " ++ "r9") ∧
     ShadowSink.disable emptySink "r9" = .ok emptySink) :=
  ⟨by decide, c8_unknown_runid emptySink "r9" (by decide)⟩

/-! ### C9 — gateway-internal entries never reach unified-logger -/

/-- C9: whatever the routing allow/block lists and the other metadata, an
entry whose source is `'logs-gateway-internal'` is refused by `shouldSend`
for the unified-logger destination, so the `emit` dispatch guard for the
unified-logger writer is false. -/
theorem c9_internal_never_unified (m : LogMeta)
    (h : m.source = some "logs-gateway-internal") :
    shouldSend "unified-logger" (some m) = false ∧
    (∀ (enableUnifiedLogger hasUnifiedSink : Bool),
      dispatchesToUnified enableUnifiedLogger hasUnifiedSink m = false) := by
  have hsend : shouldSend "unified-logger" (some m) = false := by
    rw [shouldSend]
    split
    · rfl
    · split
      · rfl
      · rw [if_pos]
        simp [Option.bind, h]
  exact ⟨hsend, fun a b => by simp [dispatchesToUnified, hsend]⟩

/-- Witness for `c9_internal_never_unified`: an internal entry whose allow
list even names the unified-logger destination is still refused. -/
theorem c9_internal_never_unified_witness :
    ({ identity := none, source := some "logs-gateway-internal",
       runId := none, shadowRunId := none,
       routing := some { allowedOutputs := some ["unified-logger"],
                         blockOutputs := none } } : LogMeta).source =
      some "logs-gateway-internal" ∧
    (shouldSend "unified-logger" (some
      { identity := none, source := some "logs-gateway-internal",
        runId := none, shadowRunId := none,
        routing := some { allowedOutputs := some ["unified-logger"],
                          blockOutputs := none } }) = false ∧
     (∀ (enableUnifiedLogger hasUnifiedSink : Bool),
       dispatchesToUnified enableUnifiedLogger hasUnifiedSink
         { identity := none, source := some "logs-gateway-internal",
           runId := none, shadowRunId := none,
           routing := some { allowedOutputs := some ["unified-logger"],
                             blockOutputs := none } } = false)) :=
  ⟨rfl, c9_internal_never_unified _ rfl⟩

/-! ### C5 — between rules with empty startIdentities -/

/-- Scoping config with a single include rule with empty `startIdentities`
and `endIdentities = ["END"]`. -/
def envC5 : GatewayEnv :=
  { scoping := some { scoping :=
      { status := "enabled", filterIdentities := none,
        filteredApplications := none,
        between := some [{ action := .include, exactMatch := none,
                           searchLog := none, startIdentities := [],
                           endIdentities := ["END"] }] } },
    stringifyMeta := fun _ => "" }

/-- C5 counterexample.  The claim says a rule with empty `startIdentities`
is in the active set at decision time for every call, including calls whose
search text matches its `endIdentities`.  On the code, the very first call
with identity `"END"` matches the end patterns, and the processing loop
erases the rule right after the initialization loop added it
(part_003 lines 422-430): the active set is empty at decision time and the
entry is excluded. -/
theorem c5_counterexample :
    (0 ∈ updateBetweenRangeState envC5 ∅ "msg" (some "END") none → False) ∧
    (shouldIncludeLog envC5 ∅ "msg" (some "END") none none).1 = false := by
  constructor
  · intro h
    revert h
    decide
  · decide

/-- The effect of the processing loop step on the membership of its own rule
index, as a function of the previous membership `pre`. -/
def procStepKeeps (env : GatewayEnv) (message : String)
    (identity : Option String) (meta : Option LogMeta) (rule : BetweenRule)
    (pre : Bool) : Bool :=
  let exactMatch := rule.exactMatch.getD false
  let searchText := betweenSearchText env message identity meta rule
  let matchesStart :=
    if rule.startIdentities.isEmpty then false
    else matchesIdentity searchText rule.startIdentities exactMatch
  let matchesEnd :=
    if rule.endIdentities.isEmpty then false
    else matchesIdentity searchText rule.endIdentities exactMatch
  if matchesStart && matchesEnd then !pre
  else if matchesStart then true
  else if matchesEnd then (if rule.endIdentities.isEmpty then pre else false)
  else pre

/-- A processing step only ever inserts or erases its own index. -/
theorem mem_procStep_ne (env : GatewayEnv) (message : String)
    (identity : Option String) (meta : Option LogMeta)
    (rules : List BetweenRule) (s : Finset ℕ) (j i : ℕ) (hne : i ≠ j) :
    (i ∈ procBetweenStep env message identity meta rules s j) ↔ i ∈ s := by
  rw [procBetweenStep]
  cases h : rules[j]? with
  | none => simp
  | some rule =>
    by_cases h1 : rule.startIdentities.isEmpty = true <;>
    by_cases h2 : rule.endIdentities.isEmpty = true <;>
    by_cases h3 : matchesIdentity (betweenSearchText env message identity meta rule)
        rule.startIdentities (rule.exactMatch.getD false) = true <;>
    by_cases h4 : matchesIdentity (betweenSearchText env message identity meta rule)
        rule.endIdentities (rule.exactMatch.getD false) = true <;>
    by_cases h5 : j ∈ s <;>
    simp [h1, h2, h3, h4, h5, Finset.mem_insert, Finset.mem_erase, hne]

/-- A processing step at its own index turns membership `pre` into
`procStepKeeps ... pre`. -/
theorem mem_procStep_self (env : GatewayEnv) (message : String)
    (identity : Option String) (meta : Option LogMeta)
    (rules : List BetweenRule) (s : Finset ℕ) (i : ℕ) (rule : BetweenRule)
    (h : rules[i]? = some rule) :
    (i ∈ procBetweenStep env message identity meta rules s i) ↔
      procStepKeeps env message identity meta rule (decide (i ∈ s)) = true := by
  rw [procBetweenStep, h, procStepKeeps]
  by_cases h1 : rule.startIdentities.isEmpty = true <;>
  by_cases h2 : rule.endIdentities.isEmpty = true <;>
  by_cases h3 : matchesIdentity (betweenSearchText env message identity meta rule)
      rule.startIdentities (rule.exactMatch.getD false) = true <;>
  by_cases h4 : matchesIdentity (betweenSearchText env message identity meta rule)
      rule.endIdentities (rule.exactMatch.getD false) = true <;>
  by_cases h5 : i ∈ s <;>
  simp [h1, h2, h3, h4, h5, Finset.mem_insert, Finset.mem_erase]

/-- Indices at or beyond `n` are untouched by the processing loop over
`range n`. -/
theorem mem_procFold_out (env : GatewayEnv) (message : String)
    (identity : Option String) (meta : Option LogMeta)
    (rules : List BetweenRule) :
    ∀ (n : ℕ) (s : Finset ℕ) (i : ℕ), n ≤ i →
      ((i ∈ (List.range n).foldl
          (procBetweenStep env message identity meta rules) s) ↔ i ∈ s) := by
  intro n
  induction n with
  | zero => simp
  | succ n ih =>
    intro s i hi
    rw [List.range_succ, List.foldl_append, List.foldl_cons, List.foldl_nil]
    rw [mem_procStep_ne env message identity meta rules _ n i (by omega)]
    exact ih s i (by omega)

/-- Membership of an in-range index after the whole processing loop: the
only step that can change it is its own, and that step sees the initial
membership. -/
theorem mem_procFold (env : GatewayEnv) (message : String)
    (identity : Option String) (meta : Option LogMeta)
    (rules : List BetweenRule) (rule : BetweenRule) :
    ∀ (n : ℕ) (s : Finset ℕ) (i : ℕ), i < n → rules[i]? = some rule →
      ((i ∈ (List.range n).foldl
          (procBetweenStep env message identity meta rules) s) ↔
        procStepKeeps env message identity meta rule (decide (i ∈ s)) = true) := by
  intro n
  induction n with
  | zero => intro s i hi; omega
  | succ n ih =>
    intro s i hi hr
    rw [List.range_succ, List.foldl_append, List.foldl_cons, List.foldl_nil]
    by_cases hin : i < n
    · rw [mem_procStep_ne env message identity meta rules _ n i (by omega)]
      exact ih s i hin hr
    · have hieq : i = n := by omega
      subst hieq
      rw [mem_procStep_self env message identity meta rules _ i rule hr]
      have hout := mem_procFold_out env message identity meta rules i s i
        (le_refl i)
      have : decide (i ∈ (List.range i).foldl
          (procBetweenStep env message identity meta rules) s) =
          decide (i ∈ s) := by
        exact decide_eq_decide.mpr hout
      rw [this]

/-- Membership after the initialization loop: rules with empty
`startIdentities` are added, everything else is untouched. -/
theorem mem_initFold (rules : List BetweenRule) :
    ∀ (n : ℕ) (st : Finset ℕ) (i : ℕ),
      (i ∈ (List.range n).foldl (initBetweenStep rules) st) ↔
        (i ∈ st ∨ (i < n ∧
          ∃ rule, rules[i]? = some rule ∧ rule.startIdentities = [])) := by
  intro n
  induction n with
  | zero => simp
  | succ n ih =>
    intro st i
    rw [List.range_succ, List.foldl_append, List.foldl_cons, List.foldl_nil]
    rw [initBetweenStep]
    cases hn : rules[n]? with
    | none =>
      rw [ih st i]
      constructor
      · rintro (h | ⟨h1, h2⟩)
        · exact Or.inl h
        · exact Or.inr ⟨by omega, h2⟩
      · rintro (h | ⟨h1, rule, hr, hs⟩)
        · exact Or.inl h
        · refine Or.inr ⟨?_, rule, hr, hs⟩
          rcases Nat.lt_succ_iff_lt_or_eq.mp h1 with h | h
          · exact h
          · subst h; rw [hn] at hr; cases hr
    | some rule =>
      by_cases hs : rule.startIdentities.isEmpty
      · simp only [hs, if_true, Finset.mem_insert]
        rw [ih st i]
        constructor
        · rintro (h | h | ⟨h1, h2⟩)
          · subst h
            exact Or.inr ⟨by omega, rule, hn,
              List.isEmpty_iff.mp hs⟩
          · exact Or.inl h
          · exact Or.inr ⟨by omega, h2⟩
        · rintro (h | ⟨h1, rule', hr, hs'⟩)
          · exact Or.inr (Or.inl h)
          · by_cases hieq : i = n
            · exact Or.inl hieq
            · exact Or.inr (Or.inr ⟨by omega, rule', hr, hs'⟩)
      · simp only [hs, Bool.false_eq_true, if_false]
        rw [ih st i]
        constructor
        · rintro (h | ⟨h1, h2⟩)
          · exact Or.inl h
          · exact Or.inr ⟨by omega, h2⟩
        · rintro (h | ⟨h1, rule', hr, hs'⟩)
          · exact Or.inl h
          · by_cases hieq : i = n
            · subst hieq
              rw [hn] at hr
              cases hr
              rw [List.isEmpty_iff] at hs
              exact absurd hs' hs
            · exact Or.inr ⟨by omega, rule', hr, hs'⟩

/-- C5 (amended): a `BetweenRule` with empty `startIdentities` is in the
active set at decision time for exactly those calls whose search text does
not match its (non-empty) `endIdentities` — the initialization loop re-adds
it on every call, but a call matching the end patterns erases it again for
that call's decision.  In particular it is active on the first call unless
that very call matches `endIdentities`. -/
theorem c5_empty_start_rule_active_iff (env : GatewayEnv) (st : Finset ℕ)
    (message : String) (identity : Option String) (meta : Option LogMeta)
    (sc : DebugScopingConfig) (rules : List BetweenRule) (i : ℕ)
    (rule : BetweenRule) (hsc : env.scoping = some sc)
    (hst : sc.scoping.status = "enabled")
    (hbet : sc.scoping.between = some rules) (hrule : rules[i]? = some rule)
    (hempty : rule.startIdentities = []) :
    (i ∈ updateBetweenRangeState env st message identity meta) ↔
      (rule.endIdentities.isEmpty ||
        !matchesIdentity (betweenSearchText env message identity meta rule)
          rule.endIdentities (rule.exactMatch.getD false)) = true := by
  have hlen : i < rules.length := by
    rcases List.getElem?_eq_some.mp hrule with ⟨h, _⟩
    exact h
  have hne : rules.isEmpty = false := by
    cases rules with
    | nil => simp at hlen
    | cons a t => rfl
  rw [updateBetweenRangeState, hsc]
  simp only [hst, ne_eq, not_true_eq_false, if_false, hbet, hne,
    Bool.false_eq_true]
  rw [mem_procFold env message identity meta rules rule rules.length _ i hlen
    hrule]
  have hinit : i ∈ (List.range rules.length).foldl (initBetweenStep rules) st := by
    rw [mem_initFold rules rules.length st i]
    exact Or.inr ⟨hlen, rule, hrule, hempty⟩
  rw [decide_eq_true hinit]
  rw [procStepKeeps]
  simp only [hempty, List.isEmpty_nil, if_true, Bool.false_and, if_false]
  by_cases hee : rule.endIdentities.isEmpty
  · simp [hee]
  · simp only [hee, if_false, Bool.false_eq_true]
    by_cases hm : matchesIdentity (betweenSearchText env message identity meta rule)
        rule.endIdentities (rule.exactMatch.getD false)
    · simp [hm, hee]
    · simp at hm
      simp [hm, hee]

/-- Witness for `c5_empty_start_rule_active_iff`: in the `envC5` scenario, a
first call whose identity does not match `"END"` leaves rule 0 active at
decision time. -/
theorem c5_empty_start_rule_active_iff_witness :
    (0 ∈ updateBetweenRangeState envC5 ∅ "msg" (some "other") none) ↔
      ((["END"] : List String).isEmpty ||
        !matchesIdentity (betweenSearchText envC5 "msg" (some "other") none
            { action := .include, exactMatch := none, searchLog := none,
              startIdentities := [], endIdentities := ["END"] })
          ["END"] false) = true :=
  c5_empty_start_rule_active_iff envC5 ∅ "msg" (some "other") none _ _ 0 _
    rfl rfl rfl rfl rfl

/-! ### C4 — the scope filter decision cascade -/

/-- The inclusion decision exactly as the claim states it: disabled scoping
or a fully unconfigured filter includes everything; otherwise an active
include rule wins, then an active exclude rule, then the OR of the two
allow-lists, with "currently active" referring to the state after this
call's between-rule update. -/
def claimedIncludeDecision (env : GatewayEnv) (st : Finset ℕ)
    (message : String) (identity : Option String) (appName : Option String)
    (meta : Option LogMeta) : Bool :=
  match env.scoping with
  | none => true
  | some sc =>
    if sc.scoping.status ≠ "enabled" then true
    else
      let fid := sc.scoping.filterIdentities.getD []
      let fapp := sc.scoping.filteredApplications.getD []
      let rules := sc.scoping.between.getD []
      if fid.isEmpty && fapp.isEmpty && rules.isEmpty then true
      else
        let active := updateBetweenRangeState env st message identity meta
        if anyActiveRule rules active .include then true
        else if anyActiveRule rules active .exclude then false
        else
          (match identity with
           | some i => fid.contains i
           | none => false) ||
          (match appName with
           | some a => fapp.contains a
           | none => false)

/-- No rule is active when there are no rules. -/
theorem anyActiveRule_nil (active : Finset ℕ) (act : RuleAction) :
    anyActiveRule [] active act = false := by
  simp [anyActiveRule]

/-- The `hasFilter &&` guard of `matchesExistingFilter` is redundant:
containment in an empty list is already false. -/
theorem contains_and_not_isEmpty (l : List String) (x : String) :
    (!l.isEmpty && decide (x ∈ l)) = decide (x ∈ l) := by
  cases l <;> simp

/-- C4: `shouldIncludeLog` computes exactly the decision cascade stated by
the claim. -/
theorem c4_scope_decision_matches_claim (env : GatewayEnv) (st : Finset ℕ)
    (message : String) (identity : Option String) (appName : Option String)
    (meta : Option LogMeta) :
    (shouldIncludeLog env st message identity appName meta).1 =
      claimedIncludeDecision env st message identity appName meta := by
  rw [shouldIncludeLog, claimedIncludeDecision]
  cases hsc : env.scoping with
  | none => rfl
  | some sc =>
    by_cases hst : sc.scoping.status = "enabled"
    · simp only [hst, ne_eq, not_true_eq_false, if_false]
      by_cases hall : ((sc.scoping.filterIdentities.getD []).isEmpty &&
          (sc.scoping.filteredApplications.getD []).isEmpty &&
          (sc.scoping.between.getD []).isEmpty) = true
      · simp [Bool.not_not, hall]
      · have hall' : (!(!(sc.scoping.filterIdentities.getD []).isEmpty) &&
            !(!(sc.scoping.filteredApplications.getD []).isEmpty) &&
            (sc.scoping.between.getD []).isEmpty) = false := by
          simpa [Bool.not_not] using hall
        simp only [hall', Bool.false_eq_true, if_false,
          eq_false_of_ne_true hall]
        by_cases hre : (sc.scoping.between.getD []).isEmpty = true
        · have hnil : sc.scoping.between.getD [] = [] :=
            List.isEmpty_iff.mp hre
          simp only [hre, if_true, hnil, anyActiveRule_nil,
            Bool.false_eq_true, if_false, contains_and_not_isEmpty]
          cases identity <;> cases appName <;>
            simp [contains_and_not_isEmpty]
        · simp only [hre, Bool.false_eq_true, if_false]
          by_cases hinc : anyActiveRule (sc.scoping.between.getD [])
              (updateBetweenRangeState env st message identity meta) .include = true
          · simp [hinc]
          · simp only [eq_false_of_ne_true hinc, Bool.false_eq_true, if_false]
            by_cases hexc : anyActiveRule (sc.scoping.between.getD [])
                (updateBetweenRangeState env st message identity meta) .exclude = true
            · simp [hexc]
            · simp only [eq_false_of_ne_true hexc, Bool.false_eq_true,
                if_false]
              cases identity <;> cases appName <;>
                simp [contains_and_not_isEmpty]
    · simp [hst]

/-! ### C6 / C10 — rolling buffer, retroactive replay, routing blocks -/

/-- The last `n` elements of a list. -/
def takeLast {α : Type} (n : Nat) (l : List α) : List α :=
  l.drop (l.length - n)

theorem length_takeLast {α : Type} (n : Nat) (l : List α) :
    (takeLast n l).length = min n l.length := by
  simp only [takeLast, List.length_drop]
  omega

theorem takeLast_subset {α : Type} (n : Nat) (l : List α) :
    ∀ x ∈ takeLast n l, x ∈ l := by
  intro x hx
  exact List.drop_subset _ l hx

/-- Re-trimming after an append: only the last `n` elements of the first
part can survive anyway. -/
theorem takeLast_append_left {α : Type} (n : Nat) (l l2 : List α) :
    takeLast n (takeLast n l ++ l2) = takeLast n (l ++ l2) := by
  unfold takeLast
  rw [← List.drop_append_of_le_length
    (show l.length - n ≤ l.length by omega), List.drop_drop]
  congr 1
  simp only [List.length_drop, List.length_append]
  omega

/-- One logical write call into the sink. -/
structure WriteCall where
  envelope : Envelope
  rawData : Nat
  now : Nat
deriving DecidableEq, Repr

def mkBuffered (c : WriteCall) : BufferedEntry :=
  ⟨c.envelope, c.rawData, c.now⟩

def callRecord (c : WriteCall) : FileRecord :=
  ⟨c.envelope, c.rawData⟩

/-- A sequence of `ShadowSink.write` calls. -/
def writeAll (cfg : ShadowConfig) (st : SinkState) (calls : List WriteCall) :
    SinkState :=
  calls.foldl (fun s c => ShadowSink.write cfg s c.envelope c.rawData c.now) st

theorem assocLookup_assocSet_self {α : Type} (l : List (String × α))
    (k : String) (v : α) : assocLookup (assocSet l k v) k = some v := by
  induction l with
  | nil => simp [assocSet, assocLookup]
  | cons p t ih =>
    by_cases h : p.1 == k
    · simp [assocSet, assocLookup, h]
    · simp [assocSet, assocLookup, h, ih]

theorem assocLookup_append_of_none {α : Type} (l : List (String × α))
    (k : String) (tail : List (String × α))
    (h : assocLookup l k = none) :
    assocLookup (l ++ tail) k = assocLookup tail k := by
  induction l with
  | nil => simp
  | cons p t ih =>
    by_cases hp : p.1 == k
    · rw [assocLookup, if_pos hp] at h
      cases h
    · rw [assocLookup, if_neg hp] at h
      rw [List.cons_append, assocLookup, if_neg hp]
      exact ih h

theorem fileContents_filesAppend_self (files : List (String × List FileRecord))
    (k : String) (recs : List FileRecord) :
    assocLookup (filesAppend files k recs) k =
      some ((assocLookup files k).getD [] ++ recs) := by
  rw [filesAppend]
  cases h : assocLookup files k with
  | none =>
    rw [assocLookup_append_of_none files k _ h]
    simp [assocLookup]
  | some old =>
    rw [assocLookup_assocSet_self]
    simp

theorem bumpRunCount_lookup (runs : List (String × ShadowRunMeta))
    (rid : String) (c : Nat) (h : assocLookup runs rid = some ⟨c⟩) :
    assocLookup (bumpRunCount runs rid) rid = some ⟨c + 1⟩ := by
  rw [bumpRunCount, h]
  exact assocLookup_assocSet_self runs rid ⟨c + 1⟩

/-- `addToBuffer` changes only the rolling buffer. -/
theorem addToBuffer_fields (cfg : ShadowConfig) (st : SinkState)
    (env : Envelope) (rawData now : Nat) :
    (addToBuffer cfg st env rawData now).activeRuns = st.activeRuns ∧
    (addToBuffer cfg st env rawData now).files = st.files := by
  rw [addToBuffer]
  split
  · exact ⟨rfl, rfl⟩
  · exact ⟨rfl, rfl⟩

/-- With a target runId that is not active, `shouldCapture` refuses. -/
theorem shouldCapture_inactive (cfg : ShadowConfig) (st : SinkState)
    (env : Envelope) (R : String) (htarget : getTargetRunId env = some R)
    (hact : assocLookup st.activeRuns R = none) :
    shouldCapture cfg st env = false := by
  rw [shouldCapture]
  split
  · rfl
  · split
    · rfl
    · rw [htarget]
      simp [hact]

/-- A routing-blocked entry is refused by `shouldCapture` whatever the
state, when `respectRoutingBlocks` is on. -/
theorem shouldCapture_blocked (cfg : ShadowConfig) (st : SinkState)
    (env : Envelope) (hrb : cfg.respectRoutingBlocks = true)
    (hblock : (env.blockOutputs.getD []).contains "file" = true ∨
      (env.blockOutputs.getD []).contains "shadow" = true) :
    shouldCapture cfg st env = false := by
  rw [shouldCapture]
  split
  · rfl
  · rw [if_pos]
    rw [hrb, Bool.true_and]
    rcases hblock with h | h
    · rw [h, Bool.true_or]
    · rw [h, Bool.or_true]

/-- The rolling buffer after a write is what `addToBuffer` produced (the
capture path never touches it). -/
theorem write_rollingBuffer (cfg : ShadowConfig) (st : SinkState)
    (env : Envelope) (rawData now : Nat) :
    (ShadowSink.write cfg st env rawData now).rollingBuffer =
      (if cfg.rollingBuffer.maxEntries > 0 then
        addToBuffer cfg st env rawData now else st).rollingBuffer := by
  rw [ShadowSink.write]
  repeat' split
  all_goals rfl

/-- A write whose resolved runId is not active changes neither the active
runs nor any file. -/
theorem write_inactive_fields (cfg : ShadowConfig) (st : SinkState)
    (env : Envelope) (rawData now : Nat) (R : String)
    (htarget : getTargetRunId env = some R)
    (hact : assocLookup st.activeRuns R = none) :
    (ShadowSink.write cfg st env rawData now).activeRuns = st.activeRuns ∧
    (ShadowSink.write cfg st env rawData now).files = st.files := by
  by_cases hm : cfg.rollingBuffer.maxEntries > 0
  · have hf := addToBuffer_fields cfg st env rawData now
    have hcap : shouldCapture cfg (addToBuffer cfg st env rawData now) env = false :=
      shouldCapture_inactive cfg _ env R htarget (by rw [hf.1]; exact hact)
    rw [ShadowSink.write, if_pos hm, hcap]
    simp only [Bool.not_false, if_true]
    exact hf
  · have hcap : shouldCapture cfg st env = false :=
      shouldCapture_inactive cfg st env R htarget hact
    rw [ShadowSink.write, if_neg hm, hcap]
    simp only [Bool.not_false, if_true]
    exact ⟨trivial, trivial⟩

/-- A routing-blocked write changes neither the active runs nor any file,
whatever the state. -/
theorem write_blocked_fields (cfg : ShadowConfig) (st : SinkState)
    (env : Envelope) (rawData now : Nat)
    (hrb : cfg.respectRoutingBlocks = true)
    (hblock : (env.blockOutputs.getD []).contains "file" = true ∨
      (env.blockOutputs.getD []).contains "shadow" = true) :
    (ShadowSink.write cfg st env rawData now).activeRuns = st.activeRuns ∧
    (ShadowSink.write cfg st env rawData now).files = st.files := by
  by_cases hm : cfg.rollingBuffer.maxEntries > 0
  · have hf := addToBuffer_fields cfg st env rawData now
    have hcap := shouldCapture_blocked cfg (addToBuffer cfg st env rawData now)
      env hrb hblock
    rw [ShadowSink.write, if_pos hm, hcap]
    simp only [Bool.not_false, if_true]
    exact hf
  · have hcap := shouldCapture_blocked cfg st env hrb hblock
    rw [ShadowSink.write, if_neg hm, hcap]
    simp only [Bool.not_false, if_true]
    exact ⟨trivial, trivial⟩

/-- With no age limit, inserting into a buffer at or under capacity keeps
exactly the most recent `maxEntries` entries. -/
theorem addToBuffer_takeLast (cfg : ShadowConfig) (st : SinkState)
    (env : Envelope) (rawData now : Nat)
    (hage : cfg.rollingBuffer.maxAgeMs = 0)
    (hM : 0 < cfg.rollingBuffer.maxEntries)
    (hlen : st.rollingBuffer.length ≤ cfg.rollingBuffer.maxEntries) :
    (addToBuffer cfg st env rawData now).rollingBuffer =
      takeLast cfg.rollingBuffer.maxEntries
        (st.rollingBuffer ++ [⟨env, rawData, now⟩]) := by
  rw [addToBuffer, if_neg (by simp; omega)]
  dsimp only
  rw [if_neg (by omega)]
  by_cases hgt : (st.rollingBuffer ++ [(⟨env, rawData, now⟩ : BufferedEntry)]).length >
      cfg.rollingBuffer.maxEntries
  · rw [if_pos hgt]
    simp only [takeLast]
    congr 1
    simp only [List.length_append, List.length_cons, List.length_nil] at hgt ⊢
    omega
  · rw [if_neg hgt]
    simp only [takeLast]
    have h0 : (st.rollingBuffer ++ [(⟨env, rawData, now⟩ : BufferedEntry)]).length -
        cfg.rollingBuffer.maxEntries = 0 := by
      simp only [List.length_append, List.length_cons, List.length_nil] at hgt ⊢
      omega
    rw [h0, List.drop_zero]

/-- Unfolding one write from a write sequence. -/
theorem writeAll_cons (cfg : ShadowConfig) (st : SinkState) (c : WriteCall)
    (rest : List WriteCall) :
    writeAll cfg st (c :: rest) =
      writeAll cfg (ShadowSink.write cfg st c.envelope c.rawData c.now) rest :=
  rfl

/-- Effect of a whole pre-`enable` write sequence: only the rolling buffer
changes, and it ends up holding exactly the most recent `maxEntries`
entries of the sequence appended to the starting buffer. -/
theorem writeAll_untracked (cfg : ShadowConfig) (R : String)
    (hage : cfg.rollingBuffer.maxAgeMs = 0) :
    ∀ (calls : List WriteCall) (st : SinkState),
      (∀ c ∈ calls, getTargetRunId c.envelope = some R) →
      assocLookup st.activeRuns R = none →
      st.rollingBuffer.length ≤ cfg.rollingBuffer.maxEntries →
      (writeAll cfg st calls).activeRuns = st.activeRuns ∧
      (writeAll cfg st calls).files = st.files ∧
      (writeAll cfg st calls).rollingBuffer =
        (if cfg.rollingBuffer.maxEntries = 0 then st.rollingBuffer
         else takeLast cfg.rollingBuffer.maxEntries
           (st.rollingBuffer ++ calls.map mkBuffered)) := by
  intro calls
  induction calls with
  | nil =>
    intro st _ _ hlen
    refine ⟨rfl, rfl, ?_⟩
    by_cases h0 : cfg.rollingBuffer.maxEntries = 0
    · simp [writeAll, h0]
    · simp only [writeAll, List.foldl_nil, List.map_nil, List.append_nil,
        h0, if_false]
      simp only [takeLast]
      rw [show st.rollingBuffer.length - cfg.rollingBuffer.maxEntries = 0 by
        omega, List.drop_zero]
  | cons c rest ih =>
    intro st htargets hact hlen
    have hc : getTargetRunId c.envelope = some R :=
      htargets c (List.mem_cons_self c rest)
    have hrest : ∀ x ∈ rest, getTargetRunId x.envelope = some R :=
      fun x hx => htargets x (List.mem_cons_of_mem c hx)
    have hw := write_inactive_fields cfg st c.envelope c.rawData c.now R hc hact
    have hwb := write_rollingBuffer cfg st c.envelope c.rawData c.now
    rw [writeAll_cons]
    by_cases h0 : cfg.rollingBuffer.maxEntries = 0
    · have hbuf : (ShadowSink.write cfg st c.envelope c.rawData c.now).rollingBuffer =
          st.rollingBuffer := by
        rw [hwb, if_neg (by omega)]
      have hrec := ih (ShadowSink.write cfg st c.envelope c.rawData c.now) hrest
        (by rw [hw.1]; exact hact) (by rw [hbuf]; exact hlen)
      refine ⟨by rw [hrec.1, hw.1], by rw [hrec.2.1, hw.2], ?_⟩
      rw [hrec.2.2]
      simp [h0, hbuf]
    · have hM : 0 < cfg.rollingBuffer.maxEntries := by omega
      have hbuf : (ShadowSink.write cfg st c.envelope c.rawData c.now).rollingBuffer =
          takeLast cfg.rollingBuffer.maxEntries
            (st.rollingBuffer ++ [mkBuffered c]) := by
        rw [hwb, if_pos hM]
        exact addToBuffer_takeLast cfg st c.envelope c.rawData c.now hage hM hlen
      have hlen2 : (ShadowSink.write cfg st c.envelope c.rawData c.now).rollingBuffer.length ≤
          cfg.rollingBuffer.maxEntries := by
        rw [hbuf, length_takeLast]
        omega
      have hrec := ih (ShadowSink.write cfg st c.envelope c.rawData c.now) hrest
        (by rw [hw.1]; exact hact) hlen2
      refine ⟨by rw [hrec.1, hw.1], by rw [hrec.2.1, hw.2], ?_⟩
      rw [hrec.2.2, if_neg h0, hbuf, takeLast_append_left, List.map_cons,
        if_neg h0, List.append_assoc]
      rfl

/-- The replay fold of `flushBufferForRunId`: appends each record in order
and bumps the counter once per record. -/
theorem flushFold_effect (R : String) :
    ∀ (recs : List BufferedEntry) (st : SinkState) (c0 : Nat),
      assocLookup st.activeRuns R = some ⟨c0⟩ →
      fileContents (recs.foldl
          (fun s e =>
            { s with
              files := filesAppend s.files R [⟨e.envelope, e.rawData⟩],
              activeRuns := bumpRunCount s.activeRuns R }) st) R =
        fileContents st R ++
          recs.map (fun e => (⟨e.envelope, e.rawData⟩ : FileRecord)) ∧
      assocLookup (recs.foldl
          (fun s e =>
            { s with
              files := filesAppend s.files R [⟨e.envelope, e.rawData⟩],
              activeRuns := bumpRunCount s.activeRuns R }) st).activeRuns R =
        some ⟨c0 + recs.length⟩ := by
  intro recs
  induction recs with
  | nil =>
    intro st c0 h
    refine ⟨by simp, ?_⟩
    simpa using h
  | cons e rest ih =>
    intro st c0 h
    rw [List.foldl_cons]
    have hstep_count : assocLookup (bumpRunCount st.activeRuns R) R =
        some ⟨c0 + 1⟩ := bumpRunCount_lookup st.activeRuns R c0 h
    have := ih { st with
        files := filesAppend st.files R [⟨e.envelope, e.rawData⟩],
        activeRuns := bumpRunCount st.activeRuns R } (c0 + 1) hstep_count
    refine ⟨?_, ?_⟩
    · rw [this.1]
      have hfc : fileContents { st with
          files := filesAppend st.files R [⟨e.envelope, e.rawData⟩],
          activeRuns := bumpRunCount st.activeRuns R } R =
          fileContents st R ++ [⟨e.envelope, e.rawData⟩] := by
        simp only [fileContents]
        rw [fileContents_filesAppend_self]
        simp [fileContents]
      rw [hfc, List.map_cons, List.append_assoc]
      rfl
    · rw [this.2, List.length_cons]
      congr 2
      omega

/-- `enable` on a buffer whose entries all resolve to the enabled runId:
the whole buffer is replayed into the run's file in arrival order and the
freshly-created counter ends at the buffer length. -/
theorem enable_effect (st : SinkState) (R : String)
    (hall : ∀ e ∈ st.rollingBuffer, getTargetRunId e.envelope = some R) :
    fileContents (ShadowSink.enable st R) R =
      fileContents st R ++
        st.rollingBuffer.map (fun e => (⟨e.envelope, e.rawData⟩ : FileRecord)) ∧
    assocLookup (ShadowSink.enable st R).activeRuns R =
      some ⟨st.rollingBuffer.length⟩ := by
  rw [ShadowSink.enable, ShadowSink.flushBufferForRunId]
  dsimp only
  have hmatch : st.rollingBuffer.filter
      (fun e => getTargetRunId e.envelope == some R) = st.rollingBuffer := by
    rw [List.filter_eq_self]
    intro e he
    simp [hall e he]
  rw [hmatch]
  have hc : assocLookup (assocSet st.activeRuns R ⟨0⟩) R = some ⟨0⟩ :=
    assocLookup_assocSet_self st.activeRuns R ⟨0⟩
  have heff := flushFold_effect R st.rollingBuffer
    { st with activeRuns := assocSet st.activeRuns R ⟨0⟩ } 0 hc
  refine ⟨?_, ?_⟩
  · rw [heff.1]
    rfl
  · rw [heff.2]
    simp

/-- Any buffered entry resolving to the enabled runId is replayed into the
run's file by `enable`, with no routing-block check on the replay path. -/
theorem enable_replays_mem (st : SinkState) (R : String) (e : BufferedEntry)
    (he : e ∈ st.rollingBuffer)
    (htarget : getTargetRunId e.envelope = some R) :
    (⟨e.envelope, e.rawData⟩ : FileRecord) ∈
      fileContents (ShadowSink.enable st R) R := by
  rw [ShadowSink.enable, ShadowSink.flushBufferForRunId]
  dsimp only
  have hc : assocLookup (assocSet st.activeRuns R ⟨0⟩) R = some ⟨0⟩ :=
    assocLookup_assocSet_self st.activeRuns R ⟨0⟩
  have heff := flushFold_effect R
    (st.rollingBuffer.filter (fun e => getTargetRunId e.envelope == some R))
    { st with activeRuns := assocSet st.activeRuns R ⟨0⟩ } 0 hc
  rw [heff.1]
  apply List.mem_append_right
  rw [List.mem_map]
  refine ⟨e, ?_, rfl⟩
  rw [List.mem_filter]
  exact ⟨he, by simp [htarget]⟩

/-- C6: with rolling-buffer capacity `M` smaller than the number `N` of
writes resolving to runId `R` made before `enable(R)` (and no age limit),
`enable(R)` replays exactly the `M` most recent matching entries into R's
file, in original arrival order, and leaves the run's entry counter at `M`. -/
theorem c6_rolling_buffer_replay (cfg : ShadowConfig) (st0 : SinkState)
    (calls : List WriteCall) (R : String)
    (hage : cfg.rollingBuffer.maxAgeMs = 0)
    (hN : cfg.rollingBuffer.maxEntries < calls.length)
    (htargets : ∀ c ∈ calls, getTargetRunId c.envelope = some R)
    (hbuf : st0.rollingBuffer = [])
    (hact : assocLookup st0.activeRuns R = none)
    (hfile : assocLookup st0.files R = none) :
    fileContents (ShadowSink.enable (writeAll cfg st0 calls) R) R =
      (calls.drop (calls.length - cfg.rollingBuffer.maxEntries)).map
        callRecord ∧
    assocLookup (ShadowSink.enable (writeAll cfg st0 calls) R).activeRuns R =
      some ⟨cfg.rollingBuffer.maxEntries⟩ := by
  have hlen0 : st0.rollingBuffer.length ≤ cfg.rollingBuffer.maxEntries := by
    rw [hbuf]
    simp
  obtain ⟨har, hfi, hrb⟩ :=
    writeAll_untracked cfg R hage calls st0 htargets hact hlen0
  have hbufval : (writeAll cfg st0 calls).rollingBuffer =
      takeLast cfg.rollingBuffer.maxEntries (calls.map mkBuffered) := by
    rw [hrb, hbuf]
    by_cases h0 : cfg.rollingBuffer.maxEntries = 0
    · rw [if_pos h0, h0]
      unfold takeLast
      rw [Nat.sub_zero, List.drop_length]
    · rw [if_neg h0, List.nil_append]
  have hall : ∀ e ∈ (writeAll cfg st0 calls).rollingBuffer,
      getTargetRunId e.envelope = some R := by
    intro e he
    rw [hbufval] at he
    have := takeLast_subset _ _ e he
    rw [List.mem_map] at this
    obtain ⟨c, hc, hce⟩ := this
    rw [← hce]
    exact htargets c hc
  obtain ⟨hfc, hcount⟩ := enable_effect (writeAll cfg st0 calls) R hall
  constructor
  · rw [hfc, hbufval]
    have hempty : fileContents (writeAll cfg st0 calls) R = [] := by
      simp [fileContents, hfi, hfile]
    rw [hempty, List.nil_append]
    unfold takeLast
    rw [List.length_map, ← List.map_drop, List.map_map]
    rfl
  · rw [hcount, hbufval, length_takeLast, List.length_map]
    congr 2
    omega

/-- Shadow config with buffer capacity 2 and no age limit. -/
def cfgC6 : ShadowConfig :=
  { enabled := true, respectRoutingBlocks := true,
    rollingBuffer := { maxEntries := 2, maxAgeMs := 0 } }

/-- A fresh sink state. -/
def sinkC6 : SinkState := { activeRuns := [], rollingBuffer := [], files := [] }

/-- Three writes resolving to run "R". -/
def callsC6 : List WriteCall :=
  [⟨⟨"e1", some "R", none, none⟩, 1, 10⟩,
   ⟨⟨"e2", some "R", none, none⟩, 2, 20⟩,
   ⟨⟨"e3", some "R", none, none⟩, 3, 30⟩]

/-- Witness for `c6_rolling_buffer_replay`: N = 3 writes for run "R" with
capacity M = 2 replay exactly the last two entries and leave the counter at
2. -/
theorem c6_rolling_buffer_replay_witness :
    (cfgC6.rollingBuffer.maxAgeMs = 0 ∧
     cfgC6.rollingBuffer.maxEntries < callsC6.length ∧
     sinkC6.rollingBuffer = [] ∧
     assocLookup sinkC6.activeRuns "R" = none ∧
     assocLookup sinkC6.files "R" = none) ∧
    (fileContents (ShadowSink.enable (writeAll cfgC6 sinkC6 callsC6) "R") "R" =
       (callsC6.drop (callsC6.length - cfgC6.rollingBuffer.maxEntries)).map
         callRecord ∧
     assocLookup (ShadowSink.enable
         (writeAll cfgC6 sinkC6 callsC6) "R").activeRuns "R" =
       some ⟨cfgC6.rollingBuffer.maxEntries⟩) :=
  ⟨⟨rfl, by decide, rfl, rfl, rfl⟩,
   c6_rolling_buffer_replay cfgC6 sinkC6 callsC6 "R" rfl (by decide)
     (by intro c hc; fin_cases hc <;> rfl) rfl rfl rfl⟩

/-- C10: with `respectRoutingBlocks` on, an entry whose routing directive
blocks the `file` (or `shadow`) destination is refused by the live shadow
capture path in any state, so `write` appends it to no run file — yet it is
still inserted into the rolling buffer, and a later `enable(R)` for its
resolved runId replays it into R's file: the buffer-replay path performs no
routing-block check. -/
theorem c10_blocked_write_buffered_replayed (cfg : ShadowConfig)
    (st : SinkState) (env : Envelope) (rawData now : Nat) (R : String)
    (hrb : cfg.respectRoutingBlocks = true)
    (hM : 0 < cfg.rollingBuffer.maxEntries)
    (hblock : (env.blockOutputs.getD []).contains "file" = true ∨
      (env.blockOutputs.getD []).contains "shadow" = true)
    (htarget : getTargetRunId env = some R) :
    (∀ st' : SinkState, shouldCapture cfg st' env = false) ∧
    (ShadowSink.write cfg st env rawData now).files = st.files ∧
    (⟨env, rawData, now⟩ : BufferedEntry) ∈
      (ShadowSink.write cfg st env rawData now).rollingBuffer ∧
    (⟨env, rawData⟩ : FileRecord) ∈
      fileContents
        (ShadowSink.enable (ShadowSink.write cfg st env rawData now) R) R := by
  have hmem : (⟨env, rawData, now⟩ : BufferedEntry) ∈
      (ShadowSink.write cfg st env rawData now).rollingBuffer := by
    rw [write_rollingBuffer, if_pos hM, addToBuffer,
      if_neg (by simp; omega)]
    dsimp only
    have hmem2 : (⟨env, rawData, now⟩ : BufferedEntry) ∈
        (if (st.rollingBuffer ++ [(⟨env, rawData, now⟩ : BufferedEntry)]).length >
            cfg.rollingBuffer.maxEntries then
          (st.rollingBuffer ++ [(⟨env, rawData, now⟩ : BufferedEntry)]).drop 1
        else st.rollingBuffer ++ [(⟨env, rawData, now⟩ : BufferedEntry)]) := by
      cases hb : st.rollingBuffer with
      | nil =>
        rw [if_neg (by simp; omega)]
        simp
      | cons y t =>
        split
        · simp
        · simp
    by_cases hage : cfg.rollingBuffer.maxAgeMs > 0
    · rw [if_pos hage]
      rw [List.mem_filter]
      exact ⟨hmem2, by simp⟩
    · rw [if_neg hage]
      exact hmem2
  refine ⟨fun st' => shouldCapture_blocked cfg st' env hrb hblock,
    (write_blocked_fields cfg st env rawData now hrb hblock).2, hmem, ?_⟩
  exact enable_replays_mem (ShadowSink.write cfg st env rawData now) R
    ⟨env, rawData, now⟩ hmem htarget

/-- A file-blocked envelope resolving to run "R". -/
def envC10 : Envelope := ⟨"b", some "R", none, some ["file"]⟩

/-- Witness for `c10_blocked_write_buffered_replayed`: a file-blocked entry
for run "R" written into an empty sink with capacity 2 is never captured
live, stays out of every file, lands in the buffer, and is replayed by
`enable("R")`. -/
theorem c10_blocked_write_buffered_replayed_witness :
    (cfgC6.respectRoutingBlocks = true ∧
     0 < cfgC6.rollingBuffer.maxEntries ∧
     (envC10.blockOutputs.getD []).contains "file" = true ∧
     getTargetRunId envC10 = some "R") ∧
    ((∀ st' : SinkState, shouldCapture cfgC6 st' envC10 = false) ∧
     (ShadowSink.write cfgC6 sinkC6 envC10 9 100).files = sinkC6.files ∧
     (⟨envC10, 9, 100⟩ : BufferedEntry) ∈
       (ShadowSink.write cfgC6 sinkC6 envC10 9 100).rollingBuffer ∧
     (⟨envC10, 9⟩ : FileRecord) ∈
       fileContents (ShadowSink.enable
         (ShadowSink.write cfgC6 sinkC6 envC10 9 100) "R") "R") :=
  ⟨⟨rfl, by decide, by decide, rfl⟩,
   c10_blocked_write_buffered_replayed cfgC6 sinkC6 envC10 9 100 "R" rfl
     (by decide) (Or.inl (by decide)) rfl⟩
